import Mathlib

/-!
Verification of the in-memory `Database` class of the Fastify CRUD tutorial
service (`src/db.js`, re-exported through `src/index.js`).

Modelling choices, all taken from the JavaScript source:

* A JavaScript object is an ordered mapping from string keys to values.
  We model it as an association list `Obj := List (String × Value)` whose
  semantics mirror JS property assignment: assigning to an existing key
  replaces the value in place (keeping the key's position), assigning to a
  fresh key appends it at the end.  Object spread `{...a, ...b}` assigns
  every entry of `b`, in order, into a copy of `a`.
* The JS `Map` used for `this.items` is modelled the same way, with `Int`
  keys (ids are JS numbers produced by the counter or by `parseInt`).
  `Map.prototype.set` replaces in place or appends; `Map.prototype.delete`
  removes the entry for the key and reports whether one was present;
  `Map.prototype.values()` iterates in insertion order.
* `new Date().toISOString()` produces an ISO-8601 timestamp string.  We
  model the clock reading as a natural number (milliseconds) wrapped in the
  value constructor `Value.vTime`; comparison of equal-format ISO-8601 UTC
  strings agrees with the numeric order of the instants they denote, so
  `Nat` order is faithful.  Every syntactic occurrence of
  `new Date().toISOString()` in the source becomes its own explicit time
  parameter, in source order; a monotone real-time clock is expressed as
  `≤` hypotheses between those parameters where a claim needs it.
* `parseInt(x)` (radix argument omitted) is modelled on string inputs:
  leading whitespace skipped, optional sign, an optional `0x`/`0X` prefix
  switching to base 16, then the longest prefix of digits; no digits means
  `NaN`, modelled as `none`.  `Map.get`/`Map.delete` at the `NaN` key miss
  (no `NaN` key is ever stored), which the `none` branches reproduce.
-/

/-- JavaScript values as far as the Store manipulates them: numbers,
strings, booleans, `null`, `undefined`, and ISO-8601 timestamp strings
(kept abstract as the instant they denote). -/
inductive Value where
  | vNum : Int → Value
  | vStr : String → Value
  | vBool : Bool → Value
  | vNull : Value
  | vUndef : Value
  | vTime : Nat → Value
  deriving DecidableEq, Repr

/-- A JavaScript object: ordered association list of string keys to values. -/
abbrev Obj : Type := List (String × Value)

/-- Property assignment / `Map.prototype.set`: replace in place if the key
is present, append otherwise. -/
def assocSet {α β : Type} [DecidableEq α] : List (α × β) → α → β → List (α × β)
  | [], k, v => [(k, v)]
  | (k', v') :: rest, k, v =>
      if k' = k then (k, v) :: rest else (k', v') :: assocSet rest k v

/-- Property read / `Map.prototype.get`: first entry with the key, if any. -/
def assocGet {α β : Type} [DecidableEq α] : List (α × β) → α → Option β
  | [], _ => none
  | (k', v') :: rest, k => if k' = k then some v' else assocGet rest k

/-- `Map.prototype.delete`: the map without the key's entry, paired with
whether an entry was present (the returned boolean). -/
def assocDelete {α β : Type} [DecidableEq α] (m : List (α × β)) (k : α) :
    List (α × β) × Bool :=
  (m.filter (fun p => decide (p.1 ≠ k)), m.any (fun p => decide (p.1 = k)))

/-- Object spread `{...a, ...b}`: assign every entry of `b`, in order, into
a copy of `a`; later keys win, existing keys keep their position. -/
def objSpread (a b : Obj) : Obj :=
  b.foldl (fun acc p => assocSet acc p.1 p.2) a

/-- Numeric value of a hex digit character, if it is one. -/
def jsDigitVal (c : Char) : Option Nat :=
  if '0' ≤ c ∧ c ≤ '9' then some (c.toNat - '0'.toNat)
  else if 'a' ≤ c ∧ c ≤ 'f' then some (c.toNat - 'a'.toNat + 10)
  else if 'A' ≤ c ∧ c ≤ 'F' then some (c.toNat - 'A'.toNat + 10)
  else none

/-- Whether a character is a digit of the given radix. -/
def isRadixDigit (radix : Nat) (c : Char) : Bool :=
  match jsDigitVal c with
  | some v => decide (v < radix)
  | none => false

/-- Whitespace skipped by `parseInt`. -/
def isJsWhitespace (c : Char) : Bool :=
  c = ' ' ∨ c = '\t' ∨ c = '\n' ∨ c = '\r' ∨ c = '\x0b' ∨ c = '\x0c'

/-- Value of a digit string in the given radix. -/
def digitsValue (radix : Nat) (cs : List Char) : Nat :=
  cs.foldl (fun acc c => acc * radix + (jsDigitVal c).getD 0) 0

/-- `parseInt(s)` with the radix argument omitted: skip whitespace, read an
optional sign, auto-detect a hexadecimal prefix, take the longest run of
digits; `none` models the `NaN` result when no digit is found. -/
def parseIntJS (s : String) : Option Int :=
  let cs0 := s.data.dropWhile isJsWhitespace
  let signed : Bool × List Char :=
    match cs0 with
    | '-' :: rest => (true, rest)
    | '+' :: rest => (false, rest)
    | _ => (false, cs0)
  let based : Nat × List Char :=
    match signed.2 with
    | '0' :: 'x' :: rest => (16, rest)
    | '0' :: 'X' :: rest => (16, rest)
    | _ => (10, signed.2)
  let digits := based.2.takeWhile (isRadixDigit based.1)
  if digits.isEmpty then none
  else
    let v : Int := Int.ofNat (digitsValue based.1 digits)
    some (if signed.1 then -v else v)

/-- The `Database` class: a `Map` of items keyed by id, and the monotonic
id counter (`this.currentId`). -/
structure Database where
  items : List (Int × Obj)
  currentId : Int
  deriving DecidableEq

/-- `new Database()`: empty map, counter at 1 (the module exports exactly
one such instance). -/
def Database.init : Database := ⟨[], 1⟩

/-- The item literal `{ id, ...data, createdAt: ..., updatedAt: ... }` of
`create`: the spread of `data` lands after the `id` entry and before the
two timestamp assignments. -/
def createItem (id : Int) (data : Obj) (tc tu : Nat) : Obj :=
  assocSet
    (assocSet (objSpread [("id", Value.vNum id)] data)
      "createdAt" (Value.vTime tc))
    "updatedAt" (Value.vTime tu)

/-- `create(data)`.  The two time parameters are the two
`new Date().toISOString()` calls, in source order (`createdAt` first).
The id is the counter value (`this.currentId++` bumps it afterwards), and
the built item is stored under that id and returned. -/
def Database.create (db : Database) (data : Obj) (tc tu : Nat) :
    Database × Obj :=
  (⟨assocSet db.items db.currentId (createItem db.currentId data tc tu),
    db.currentId + 1⟩,
   createItem db.currentId data tc tu)

/-- `findAll()`: `Array.from(this.items.values())`, insertion order. -/
def Database.findAll (db : Database) : List Obj :=
  db.items.map Prod.snd

/-- `findById(id)`: `this.items.get(parseInt(id))`; a `NaN` id misses. -/
def Database.findById (db : Database) (id : String) : Option Obj :=
  match parseIntJS id with
  | none => none
  | some n => assocGet db.items n

/-- The updated literal
`{ ...item, ...data, id: item.id, createdAt: item.createdAt, updatedAt: ... }`
of `update`: both spreads land first, then `id` and `createdAt` are
reassigned from the existing item (a property missing from the item would
read as `undefined`), then `updatedAt` gets the clock reading. -/
def updateItem (item data : Obj) (t : Nat) : Obj :=
  assocSet
    (assocSet
      (assocSet (objSpread (objSpread [] item) data)
        "id" ((assocGet item "id").getD Value.vUndef))
      "createdAt" ((assocGet item "createdAt").getD Value.vUndef))
    "updatedAt" (Value.vTime t)

/-- `update(id, data)`.  The time parameter is the single
`new Date().toISOString()` call.  A falsy lookup (`!item`) returns `null`;
otherwise the rebuilt item replaces the stored one and is returned. -/
def Database.update (db : Database) (id : String) (data : Obj) (t : Nat) :
    Database × Option Obj :=
  match parseIntJS id with
  | none => (db, none)
  | some n =>
    match assocGet db.items n with
    | none => (db, none)
    | some item =>
      (⟨assocSet db.items n (updateItem item data t), db.currentId⟩,
       some (updateItem item data t))

/-- `delete(id)`: `this.items.delete(parseInt(id))`. -/
def Database.delete (db : Database) (id : String) : Database × Bool :=
  match parseIntJS id with
  | none => (db, false)
  | some n =>
    let r := assocDelete db.items n
    (⟨r.1, db.currentId⟩, r.2)

/-- Every key in the map is below the counter (holds in every reachable
state; creation keys come from the counter before it is bumped). -/
def Database.Bounded (db : Database) : Prop :=
  ∀ p ∈ db.items, p.1 < db.currentId

/-- The map's keys are distinct (a JS `Map` cannot hold a key twice). -/
def Database.KeysNodup (db : Database) : Prop :=
  (db.items.map Prod.fst).Nodup

instance (db : Database) : Decidable db.Bounded := by
  unfold Database.Bounded
  infer_instance

instance (db : Database) : Decidable db.KeysNodup := by
  unfold Database.KeysNodup
  infer_instance

/-- One call into the Store, with its clock readings. -/
inductive Op where
  | create : Obj → Nat → Nat → Op
  | findAll : Op
  | findById : String → Op
  | update : String → Obj → Nat → Op
  | delete : String → Op

/-- The state after one Store call (reads leave the state unchanged). -/
def applyOp (db : Database) : Op → Database
  | .create data tc tu => (db.create data tc tu).1
  | .findAll => db
  | .findById _ => db
  | .update id data t => (db.update id data t).1
  | .delete id => (db.delete id).1

/-- The state after a sequence of Store calls. -/
def runOps (db : Database) : List Op → Database
  | [] => db
  | op :: rest => runOps (applyOp db op) rest

/-- The ids handed out by the `create` calls of a run, in call order
(each is the counter value `create` allocates and stores the item under). -/
def createdIds (db : Database) : List Op → List Int
  | [] => []
  | op :: rest =>
    match op with
    | .create _ _ _ => db.currentId :: createdIds (applyOp db op) rest
    | _ => createdIds (applyOp db op) rest

/-- Number of `create` calls in a sequence (every create succeeds). -/
def numCreates : List Op → Nat
  | [] => 0
  | .create _ _ _ :: rest => numCreates rest + 1
  | _ :: rest => numCreates rest

/-- Number of `delete` calls of a run that return `true`. -/
def numSuccessfulDeletes (db : Database) : List Op → Nat
  | [] => 0
  | op :: rest =>
    (match op with
     | .delete id => if (db.delete id).2 then 1 else 0
     | _ => 0) + numSuccessfulDeletes (applyOp db op) rest

section AssocLemmas

variable {α β : Type} [DecidableEq α]

theorem assocGet_assocSet_self (m : List (α × β)) (k : α) (v : β) :
    assocGet (assocSet m k v) k = some v := by
  induction m with
  | nil => simp [assocSet, assocGet]
  | cons p rest ih =>
    obtain ⟨k', v'⟩ := p
    by_cases h : k' = k
    · simp [assocSet, assocGet, h]
    · simp [assocSet, assocGet, h, ih]

theorem assocGet_assocSet_ne (m : List (α × β)) {k k' : α} (v : β)
    (h : k' ≠ k) : assocGet (assocSet m k v) k' = assocGet m k' := by
  induction m with
  | nil => simp [assocSet, assocGet, Ne.symm h]
  | cons p rest ih =>
    obtain ⟨k0, v0⟩ := p
    by_cases h0 : k0 = k
    · subst h0
      simp [assocSet, assocGet, Ne.symm h, h]
    · by_cases h1 : k0 = k'
      · simp [assocSet, assocGet, h0, h1, h]
      · simp [assocSet, assocGet, h0, h1, ih]

theorem assocGet_eq_none_iff (m : List (α × β)) (k : α) :
    assocGet m k = none ↔ k ∉ m.map Prod.fst := by
  induction m with
  | nil => simp [assocGet]
  | cons p rest ih =>
    obtain ⟨k', v'⟩ := p
    by_cases h : k' = k
    · simp [assocGet, h]
    · simp [assocGet, h, ih, Ne.symm h]

theorem mem_of_assocGet_eq_some {m : List (α × β)} {k : α} {v : β}
    (h : assocGet m k = some v) : (k, v) ∈ m := by
  induction m with
  | nil => simp [assocGet] at h
  | cons p rest ih =>
    obtain ⟨k', v'⟩ := p
    by_cases h0 : k' = k
    · subst h0
      simp [assocGet] at h
      simp [h]
    · simp [assocGet, h0] at h
      exact List.mem_cons_of_mem _ (ih h)

theorem assocGet_eq_some_of_mem {m : List (α × β)} {k : α} {v : β}
    (hnd : (m.map Prod.fst).Nodup) (h : (k, v) ∈ m) :
    assocGet m k = some v := by
  induction m with
  | nil => simp at h
  | cons p rest ih =>
    obtain ⟨k', v'⟩ := p
    simp only [List.map_cons, List.nodup_cons] at hnd
    rcases List.mem_cons.mp h with h1 | h1
    · injection h1 with hk hv
      subst hk
      subst hv
      simp [assocGet]
    · have hne : k' ≠ k := by
        intro hkk
        subst hkk
        exact hnd.1 (List.mem_map.mpr ⟨(k', v), h1, rfl⟩)
      simp [assocGet, hne, ih hnd.2 h1]

theorem assocSet_of_get_none {m : List (α × β)} {k : α}
    (h : assocGet m k = none) (v : β) : assocSet m k v = m ++ [(k, v)] := by
  induction m with
  | nil => simp [assocSet]
  | cons p rest ih =>
    obtain ⟨k', v'⟩ := p
    by_cases h0 : k' = k
    · simp [assocGet, h0] at h
    · simp [assocGet, h0] at h
      simp [assocSet, h0, ih h]

theorem assocSet_eq_map_of_get_some {m : List (α × β)} {k : α} {w : β}
    (hnd : (m.map Prod.fst).Nodup) (h : assocGet m k = some w) (v : β) :
    assocSet m k v = m.map (fun p => if p.1 = k then (k, v) else p) := by
  induction m with
  | nil => simp [assocGet] at h
  | cons p rest ih =>
    obtain ⟨k', v'⟩ := p
    simp only [List.map_cons, List.nodup_cons] at hnd
    by_cases h0 : k' = k
    · subst h0
      have hrest : ∀ (l : List (α × β)), k' ∉ l.map Prod.fst →
          l.map (fun p => if p.1 = k' then (k', v) else p) = l := by
        intro l
        induction l with
        | nil => intro _; simp
        | cons q t iht =>
          intro hl
          simp only [List.map_cons, List.mem_cons, not_or] at hl
          have hq : q.1 ≠ k' := fun hq => hl.1 hq.symm
          simp [hq, iht hl.2]
      simp [assocSet, hrest rest hnd.1]
    · simp [assocGet, h0] at h
      simp [assocSet, h0, ih hnd.2 h]

theorem mem_assocSet {m : List (α × β)} {k : α} {v : β} {p : α × β}
    (h : p ∈ assocSet m k v) : p = (k, v) ∨ p ∈ m := by
  induction m with
  | nil =>
    simp only [assocSet] at h
    exact Or.inl (List.mem_singleton.mp h)
  | cons q rest ih =>
    obtain ⟨k', v'⟩ := q
    by_cases h0 : k' = k
    · simp only [assocSet, if_pos h0] at h
      rcases List.mem_cons.mp h with h1 | h1
      · exact Or.inl h1
      · exact Or.inr (List.mem_cons_of_mem _ h1)
    · simp only [assocSet, if_neg h0] at h
      rcases List.mem_cons.mp h with h1 | h1
      · exact Or.inr (by rw [h1]; exact List.mem_cons_self _ _)
      · rcases ih h1 with h2 | h2
        · exact Or.inl h2
        · exact Or.inr (List.mem_cons_of_mem _ h2)

theorem keys_assocSet_of_get_some {m : List (α × β)} {k : α} {w : β}
    (h : assocGet m k = some w) (v : β) :
    (assocSet m k v).map Prod.fst = m.map Prod.fst := by
  induction m with
  | nil => simp [assocGet] at h
  | cons p rest ih =>
    obtain ⟨k', v'⟩ := p
    by_cases h0 : k' = k
    · simp [assocSet, h0]
    · simp [assocGet, h0] at h
      simp [assocSet, h0, ih h]

theorem length_assocSet_of_get_some {m : List (α × β)} {k : α} {w : β}
    (h : assocGet m k = some w) (v : β) :
    (assocSet m k v).length = m.length := by
  have := keys_assocSet_of_get_some h v
  have h1 : ((assocSet m k v).map Prod.fst).length = (m.map Prod.fst).length := by
    rw [this]
  simpa using h1

theorem assocGet_filter_ne (m : List (α × β)) (k : α) :
    assocGet (m.filter (fun p => decide (p.1 ≠ k))) k = none := by
  induction m with
  | nil => simp [assocGet]
  | cons p rest ih =>
    obtain ⟨k', v'⟩ := p
    by_cases h0 : k' = k
    · simpa [List.filter_cons, h0] using ih
    · simpa [List.filter_cons, h0, assocGet] using ih

theorem assocGet_filter_of_ne (m : List (α × β)) {k k' : α} (h : k' ≠ k) :
    assocGet (m.filter (fun p => decide (p.1 ≠ k))) k' = assocGet m k' := by
  induction m with
  | nil => simp [assocGet]
  | cons p rest ih =>
    obtain ⟨k0, v0⟩ := p
    by_cases h0 : k0 = k
    · subst h0
      have hne : ¬(k0 = k') := fun hk => h hk.symm
      have hget : assocGet ((k0, v0) :: rest) k' = assocGet rest k' := by
        simp [assocGet, hne]
      rw [hget]
      have hdrop : ((k0, v0) :: rest).filter (fun p => decide (p.1 ≠ k0)) =
          rest.filter (fun p => decide (p.1 ≠ k0)) := by
        simp [List.filter_cons]
      rw [hdrop, ih]
    · by_cases h1 : k0 = k'
      · subst h1
        have hkeep : ((k0, v0) :: rest).filter (fun p => decide (p.1 ≠ k)) =
            (k0, v0) :: rest.filter (fun p => decide (p.1 ≠ k)) := by
          simp [List.filter_cons, h0]
        rw [hkeep]
        simp [assocGet]
      · have hkeep : ((k0, v0) :: rest).filter (fun p => decide (p.1 ≠ k)) =
            (k0, v0) :: rest.filter (fun p => decide (p.1 ≠ k)) := by
          simp [List.filter_cons, h0]
        rw [hkeep]
        show (if k0 = k' then some v0
            else assocGet (rest.filter (fun p => decide (p.1 ≠ k))) k') =
          (if k0 = k' then some v0 else assocGet rest k')
        rw [if_neg h1, if_neg h1, ih]

theorem filter_ne_eq_self_of_get_none {m : List (α × β)} {k : α}
    (h : assocGet m k = none) :
    m.filter (fun p => decide (p.1 ≠ k)) = m := by
  rw [assocGet_eq_none_iff] at h
  apply List.filter_eq_self.mpr
  intro p hp
  simp only [decide_eq_true_eq]
  intro hpk
  exact h (List.mem_map.mpr ⟨p, hp, hpk⟩)

theorem any_key_eq_isSome (m : List (α × β)) (k : α) :
    m.any (fun p => decide (p.1 = k)) = (assocGet m k).isSome := by
  induction m with
  | nil => simp [assocGet]
  | cons p rest ih =>
    obtain ⟨k', v'⟩ := p
    by_cases h0 : k' = k
    · simp [assocGet, h0]
    · simp [assocGet, h0, ih]

theorem length_filter_ne_of_get_some {m : List (α × β)} {k : α} {v : β}
    (hnd : (m.map Prod.fst).Nodup) (h : assocGet m k = some v) :
    (m.filter (fun p => decide (p.1 ≠ k))).length + 1 = m.length := by
  induction m with
  | nil => simp [assocGet] at h
  | cons p rest ih =>
    obtain ⟨k', v'⟩ := p
    simp only [List.map_cons, List.nodup_cons] at hnd
    by_cases h0 : k' = k
    · subst h0
      have hnone : assocGet rest k' = none := by
        rw [assocGet_eq_none_iff]
        exact hnd.1
      have hdrop : ((k', v') :: rest).filter (fun p => decide (p.1 ≠ k')) =
          rest.filter (fun p => decide (p.1 ≠ k')) := by
        simp [List.filter_cons]
      rw [hdrop, filter_ne_eq_self_of_get_none hnone]
      simp
    · simp only [assocGet, h0, if_false] at h
      have hkeep : ((k', v') :: rest).filter (fun p => decide (p.1 ≠ k)) =
          (k', v') :: rest.filter (fun p => decide (p.1 ≠ k)) := by
        simp [List.filter_cons, h0]
      rw [hkeep]
      have := ih hnd.2 h
      simp only [List.length_cons]
      omega

end AssocLemmas

theorem objGet_objSpread_of_none (a : Obj) {b : Obj} {k : String}
    (h : assocGet b k = none) :
    assocGet (objSpread a b) k = assocGet a k := by
  induction b generalizing a with
  | nil => simp [objSpread]
  | cons p rest ih =>
    obtain ⟨k', v'⟩ := p
    by_cases h0 : k' = k
    · simp [assocGet, h0] at h
    · simp only [assocGet, h0, if_false] at h
      have : objSpread a ((k', v') :: rest) = objSpread (assocSet a k' v') rest := rfl
      rw [this, ih _ h, assocGet_assocSet_ne _ _ (fun hk => h0 hk.symm)]

theorem objGet_objSpread_of_some (a : Obj) {b : Obj} {k : String} {v : Value}
    (hnd : (b.map Prod.fst).Nodup) (h : assocGet b k = some v) :
    assocGet (objSpread a b) k = some v := by
  induction b generalizing a with
  | nil => simp [assocGet] at h
  | cons p rest ih =>
    obtain ⟨k', v'⟩ := p
    simp only [List.map_cons, List.nodup_cons] at hnd
    have hstep : objSpread a ((k', v') :: rest) = objSpread (assocSet a k' v') rest := rfl
    by_cases h0 : k' = k
    · subst h0
      have hv : v' = v := by simpa [assocGet] using h
      have hnone : assocGet rest k' = none := by
        rw [assocGet_eq_none_iff]
        exact hnd.1
      rw [hstep, objGet_objSpread_of_none _ hnone, assocGet_assocSet_self a k' v', hv]
    · simp only [assocGet, h0, if_false] at h
      rw [hstep, ih _ hnd.2 h]

theorem update_currentId (db : Database) (s : String) (data : Obj) (t : Nat) :
    (db.update s data t).1.currentId = db.currentId := by
  rw [Database.update]
  split
  · rfl
  · split
    · rfl
    · rfl

theorem delete_currentId (db : Database) (s : String) :
    (db.delete s).1.currentId = db.currentId := by
  rw [Database.delete]
  split
  · rfl
  · rfl

theorem currentId_le_applyOp (db : Database) (op : Op) :
    db.currentId ≤ (applyOp db op).currentId := by
  cases op with
  | create data tc tu =>
    have : (applyOp db (Op.create data tc tu)).currentId = db.currentId + 1 := rfl
    omega
  | findAll => exact le_refl _
  | findById s => exact le_refl _
  | update s data t => rw [applyOp, update_currentId]
  | delete s => rw [applyOp, delete_currentId]

theorem currentId_runOps (db : Database) (ops : List Op) :
    (runOps db ops).currentId = db.currentId + (numCreates ops : Int) := by
  induction ops generalizing db with
  | nil => simp [runOps, numCreates]
  | cons op rest ih =>
    rw [runOps, ih]
    cases op with
    | create data tc tu =>
      have h1 : (applyOp db (Op.create data tc tu)).currentId = db.currentId + 1 := rfl
      rw [h1, numCreates]
      push_cast
      ring
    | findAll => rfl
    | findById s => rfl
    | update s data t => rw [applyOp, update_currentId]; rfl
    | delete s => rw [applyOp, delete_currentId]; rfl

theorem le_of_mem_createdIds {db : Database} {ops : List Op} {x : Int}
    (h : x ∈ createdIds db ops) : db.currentId ≤ x := by
  induction ops generalizing db with
  | nil => simp [createdIds] at h
  | cons op rest ih =>
    cases op with
    | create data tc tu =>
      simp only [createdIds] at h
      rcases List.mem_cons.mp h with h1 | h1
      · rw [h1]
      · have h2 := ih h1
        have h3 : (applyOp db (Op.create data tc tu)).currentId = db.currentId + 1 := rfl
        omega
    | findAll =>
      simp only [createdIds] at h
      exact ih h
    | findById s =>
      simp only [createdIds] at h
      exact ih h
    | update s data t =>
      simp only [createdIds] at h
      have h2 := ih h
      calc db.currentId ≤ (applyOp db (Op.update s data t)).currentId :=
            currentId_le_applyOp db _
        _ ≤ x := h2
    | delete s =>
      simp only [createdIds] at h
      have h2 := ih h
      calc db.currentId ≤ (applyOp db (Op.delete s)).currentId :=
            currentId_le_applyOp db _
        _ ≤ x := h2

theorem createdIds_pairwise (db : Database) (ops : List Op) :
    (createdIds db ops).Pairwise (fun a b => a < b) := by
  induction ops generalizing db with
  | nil => simp [createdIds]
  | cons op rest ih =>
    cases op with
    | create data tc tu =>
      simp only [createdIds]
      refine List.Pairwise.cons ?_ (ih _)
      intro x hx
      have h1 := le_of_mem_createdIds hx
      have h2 : (applyOp db (Op.create data tc tu)).currentId = db.currentId + 1 := rfl
      omega
    | findAll => simp only [createdIds]; exact ih _
    | findById s => simp only [createdIds]; exact ih _
    | update s data t => simp only [createdIds]; exact ih _
    | delete s => simp only [createdIds]; exact ih _

theorem assocGet_items_currentId {db : Database} (hb : db.Bounded) :
    assocGet db.items db.currentId = none := by
  rw [assocGet_eq_none_iff]
  intro hmem
  obtain ⟨p, hp, hpk⟩ := List.mem_map.mp hmem
  have := hb p hp
  omega

theorem update_items_characterise (db : Database) (s : String) (data : Obj)
    (t : Nat) :
    ((db.update s data t).1 = db ∧ (db.update s data t).2 = none) ∨
      ∃ n item, parseIntJS s = some n ∧ assocGet db.items n = some item ∧
        (db.update s data t).2 = some (updateItem item data t) ∧
        (db.update s data t).1 =
          ⟨assocSet db.items n (updateItem item data t), db.currentId⟩ := by
  rw [Database.update]
  split
  · exact Or.inl ⟨rfl, rfl⟩
  next n hp =>
    split
    next hg => exact Or.inl ⟨rfl, rfl⟩
    next item hg => exact Or.inr ⟨n, item, hp, hg, rfl, rfl⟩

theorem delete_items_characterise (db : Database) (s : String) :
    (parseIntJS s = none ∧ (db.delete s).1 = db ∧ (db.delete s).2 = false) ∨
      ∃ n, parseIntJS s = some n ∧
        (db.delete s).1 =
          ⟨db.items.filter (fun p => decide (p.1 ≠ n)), db.currentId⟩ ∧
        (db.delete s).2 = db.items.any (fun p => decide (p.1 = n)) := by
  rw [Database.delete]
  split
  next hp => exact Or.inl ⟨hp, rfl, rfl⟩
  next n hp => exact Or.inr ⟨n, hp, rfl, rfl⟩

theorem bounded_keysNodup_applyOp {db : Database} (op : Op)
    (hb : db.Bounded) (hn : db.KeysNodup) :
    (applyOp db op).Bounded ∧ (applyOp db op).KeysNodup := by
  cases op with
  | create data tc tu =>
    have hfresh := assocGet_items_currentId hb
    have happ := assocSet_of_get_none hfresh (createItem db.currentId data tc tu)
    have hitems : (applyOp db (Op.create data tc tu)).items =
        db.items ++ [(db.currentId, createItem db.currentId data tc tu)] := by
      rw [applyOp, Database.create]
      exact happ
    have hcid : (applyOp db (Op.create data tc tu)).currentId =
        db.currentId + 1 := rfl
    constructor
    · intro p hp
      rw [hitems] at hp
      rw [hcid]
      rcases List.mem_append.mp hp with h1 | h1
      · have := hb p h1
        omega
      · rw [List.mem_singleton] at h1
        rw [h1]
        show db.currentId < db.currentId + 1
        omega
    · rw [Database.KeysNodup, hitems, List.map_append]
      simp only [List.map_cons, List.map_nil]
      rw [List.nodup_append]
      refine ⟨hn, List.nodup_singleton _, ?_⟩
      intro a ha hb1
      rw [List.mem_singleton] at hb1
      rw [assocGet_eq_none_iff] at hfresh
      exact hfresh (hb1 ▸ ha)
  | findAll => exact ⟨hb, hn⟩
  | findById s => exact ⟨hb, hn⟩
  | update s data t =>
    rcases update_items_characterise db s data t with ⟨h, _⟩ | ⟨n, item, hp, hg, _, h⟩
    · rw [applyOp, h]
      exact ⟨hb, hn⟩
    · rw [applyOp, h]
      constructor
      · intro p hpm
        rcases mem_assocSet hpm with h1 | h1
        · have hmem := mem_of_assocGet_eq_some hg
          have h2 := hb (n, item) hmem
          rw [h1]
          show n < db.currentId
          exact h2
        · exact hb p h1
      · rw [Database.KeysNodup]
        show (List.map Prod.fst (assocSet db.items n (updateItem item data t))).Nodup
        rw [keys_assocSet_of_get_some hg]
        exact hn
  | delete s =>
    rcases delete_items_characterise db s with ⟨_, h, _⟩ | ⟨n, hp, h, _⟩
    · rw [applyOp, h]
      exact ⟨hb, hn⟩
    · rw [applyOp, h]
      constructor
      · intro p hpm
        exact hb p (List.mem_of_mem_filter hpm)
      · rw [Database.KeysNodup]
        exact List.Nodup.sublist (List.Sublist.map _ (List.filter_sublist _)) hn

theorem create_items_length {db : Database} (hb : db.Bounded)
    (data : Obj) (tc tu : Nat) :
    (db.create data tc tu).1.items.length = db.items.length + 1 := by
  rw [Database.create]
  show (assocSet db.items db.currentId (createItem db.currentId data tc tu)).length =
    db.items.length + 1
  rw [assocSet_of_get_none (assocGet_items_currentId hb)]
  simp

theorem update_items_length (db : Database) (s : String) (data : Obj)
    (t : Nat) :
    (db.update s data t).1.items.length = db.items.length := by
  rcases update_items_characterise db s data t with ⟨h, _⟩ | ⟨n, item, hp, hg, _, h⟩
  · rw [h]
  · rw [h]
    exact length_assocSet_of_get_some hg _

theorem delete_items_length {db : Database} (hn : db.KeysNodup) (s : String) :
    (db.delete s).1.items.length + (if (db.delete s).2 then 1 else 0) =
      db.items.length := by
  rcases delete_items_characterise db s with ⟨_, h1, h2⟩ | ⟨n, hp, h1, h2⟩
  · rw [h1, h2]
    simp
  · rw [h1, h2, any_key_eq_isSome]
    cases hg : assocGet db.items n with
    | none =>
      rw [filter_ne_eq_self_of_get_none hg]
      simp
    | some item =>
      simp only [Option.isSome_some, if_true]
      exact length_filter_ne_of_get_some hn hg

theorem items_length_runOps (db : Database) (ops : List Op)
    (hb : db.Bounded) (hn : db.KeysNodup) :
    (runOps db ops).items.length + numSuccessfulDeletes db ops =
      db.items.length + numCreates ops := by
  induction ops generalizing db with
  | nil => simp [runOps, numSuccessfulDeletes, numCreates]
  | cons op rest ih =>
    obtain ⟨hb1, hn1⟩ := bounded_keysNodup_applyOp op hb hn
    have IH := ih (applyOp db op) hb1 hn1
    have erun : runOps db (op :: rest) = runOps (applyOp db op) rest := rfl
    cases op with
    | create data tc tu =>
      have hlen : (applyOp db (Op.create data tc tu)).items.length =
          db.items.length + 1 := create_items_length hb data tc tu
      have edel : numSuccessfulDeletes db (Op.create data tc tu :: rest) =
          0 + numSuccessfulDeletes (applyOp db (Op.create data tc tu)) rest := rfl
      have ecr : numCreates (Op.create data tc tu :: rest) =
          numCreates rest + 1 := rfl
      rw [erun, edel, ecr]
      omega
    | findAll =>
      have edel : numSuccessfulDeletes db (Op.findAll :: rest) =
          0 + numSuccessfulDeletes (applyOp db Op.findAll) rest := rfl
      have ecr : numCreates (Op.findAll :: rest) = numCreates rest := rfl
      have eapp : applyOp db Op.findAll = db := rfl
      rw [erun, edel, ecr, eapp]
      rw [eapp] at IH
      omega
    | findById s =>
      have edel : numSuccessfulDeletes db (Op.findById s :: rest) =
          0 + numSuccessfulDeletes (applyOp db (Op.findById s)) rest := rfl
      have ecr : numCreates (Op.findById s :: rest) = numCreates rest := rfl
      have eapp : applyOp db (Op.findById s) = db := rfl
      rw [erun, edel, ecr, eapp]
      rw [eapp] at IH
      omega
    | update s data t =>
      have hlen : (applyOp db (Op.update s data t)).items.length =
          db.items.length := update_items_length db s data t
      have edel : numSuccessfulDeletes db (Op.update s data t :: rest) =
          0 + numSuccessfulDeletes (applyOp db (Op.update s data t)) rest := rfl
      have ecr : numCreates (Op.update s data t :: rest) = numCreates rest := rfl
      rw [erun, edel, ecr]
      omega
    | delete s =>
      have hlen := delete_items_length hn s
      have edel : numSuccessfulDeletes db (Op.delete s :: rest) =
          (if (db.delete s).2 then 1 else 0) +
            numSuccessfulDeletes (applyOp db (Op.delete s)) rest := rfl
      have ecr : numCreates (Op.delete s :: rest) = numCreates rest := rfl
      have eapp : applyOp db (Op.delete s) = (db.delete s).1 := rfl
      rw [erun, edel, ecr, eapp]
      rw [eapp] at IH
      omega

theorem findById_nan (db : Database) (s : String)
    (hp : parseIntJS s = none) : db.findById s = none := by
  rw [Database.findById, hp]

theorem findById_found (db : Database) (s : String) {n : Int}
    (hp : parseIntJS s = some n) : db.findById s = assocGet db.items n := by
  rw [Database.findById, hp]

theorem findById_inv {db : Database} {s : String} {item : Obj}
    (h : db.findById s = some item) :
    ∃ n, parseIntJS s = some n ∧ assocGet db.items n = some item := by
  cases hp : parseIntJS s with
  | none =>
    rw [findById_nan db s hp] at h
    exact absurd h (by simp)
  | some n =>
    rw [findById_found db s hp] at h
    exact ⟨n, rfl, h⟩

theorem update_found (db : Database) (s : String) (data : Obj) (t : Nat)
    {n : Int} {item : Obj} (hp : parseIntJS s = some n)
    (hg : assocGet db.items n = some item) :
    db.update s data t =
      (⟨assocSet db.items n (updateItem item data t), db.currentId⟩,
       some (updateItem item data t)) := by
  rw [Database.update, hp]
  show (match assocGet db.items n with
      | none => (db, none)
      | some it =>
        (⟨assocSet db.items n (updateItem it data t), db.currentId⟩,
         some (updateItem it data t))) =
    (⟨assocSet db.items n (updateItem item data t), db.currentId⟩,
     some (updateItem item data t))
  rw [hg]

theorem updateItem_get_id (item data : Obj) (t : Nat) :
    assocGet (updateItem item data t) "id" =
      some ((assocGet item "id").getD Value.vUndef) := by
  rw [updateItem]
  rw [assocGet_assocSet_ne _ _ (by decide : ("id" : String) ≠ "updatedAt")]
  rw [assocGet_assocSet_ne _ _ (by decide : ("id" : String) ≠ "createdAt")]
  rw [assocGet_assocSet_self]

theorem updateItem_get_createdAt (item data : Obj) (t : Nat) :
    assocGet (updateItem item data t) "createdAt" =
      some ((assocGet item "createdAt").getD Value.vUndef) := by
  rw [updateItem]
  rw [assocGet_assocSet_ne _ _ (by decide : ("createdAt" : String) ≠ "updatedAt")]
  rw [assocGet_assocSet_self]

theorem updateItem_get_updatedAt (item data : Obj) (t : Nat) :
    assocGet (updateItem item data t) "updatedAt" = some (Value.vTime t) := by
  rw [updateItem]
  rw [assocGet_assocSet_self]

theorem updateItem_get_other (item data : Obj) (t : Nat) {k : String}
    (hk1 : k ≠ "id") (hk2 : k ≠ "createdAt") (hk3 : k ≠ "updatedAt") :
    assocGet (updateItem item data t) k =
      assocGet (objSpread (objSpread [] item) data) k := by
  rw [updateItem]
  rw [assocGet_assocSet_ne _ _ hk3, assocGet_assocSet_ne _ _ hk2,
    assocGet_assocSet_ne _ _ hk1]

theorem assocGet_objSpread_nil {item : Obj}
    (hnd : (item.map Prod.fst).Nodup) (k : String) :
    assocGet (objSpread [] item) k = assocGet item k := by
  cases hg : assocGet item k with
  | none =>
    rw [objGet_objSpread_of_none _ hg]
    rfl
  | some v => rw [objGet_objSpread_of_some _ hnd hg]

theorem createItem_get_id (id : Int) (data : Obj) (tc tu : Nat)
    (h : assocGet data "id" = none) :
    assocGet (createItem id data tc tu) "id" = some (Value.vNum id) := by
  rw [createItem]
  rw [assocGet_assocSet_ne _ _ (by decide : ("id" : String) ≠ "updatedAt")]
  rw [assocGet_assocSet_ne _ _ (by decide : ("id" : String) ≠ "createdAt")]
  rw [objGet_objSpread_of_none _ h]
  rfl

theorem createItem_get_createdAt (id : Int) (data : Obj) (tc tu : Nat) :
    assocGet (createItem id data tc tu) "createdAt" = some (Value.vTime tc) := by
  rw [createItem]
  rw [assocGet_assocSet_ne _ _ (by decide : ("createdAt" : String) ≠ "updatedAt")]
  rw [assocGet_assocSet_self]

theorem createItem_get_updatedAt (id : Int) (data : Obj) (tc tu : Nat) :
    assocGet (createItem id data tc tu) "updatedAt" = some (Value.vTime tu) := by
  rw [createItem]
  rw [assocGet_assocSet_self]

/-- C1: starting from the fresh Store, over any sequence of Store
operations the ids allocated and returned by the successive `create` calls
(each is the counter value the new item is stored under) are strictly
increasing, hence never repeated and never reassigned, even with deletes
interleaved; the counter starts at 1 and gains exactly 1 per create. -/
theorem create_ids_strictly_increasing (ops : List Op) :
    (createdIds Database.init ops).Pairwise (fun a b => a < b) ∧
    Database.init.currentId = 1 ∧
    (runOps Database.init ops).currentId = 1 + (numCreates ops : Int) := by
  refine ⟨createdIds_pairwise _ _, rfl, ?_⟩
  rw [currentId_runOps]
  rfl

/-- C2 is false as stated: in `{ id, ...data, createdAt, updatedAt }` the
payload is spread after the `id` entry, so a payload carrying an `"id"`
field overrides the counter-assigned id in the entity that is returned and
stored (here payload id 99 wins over the counter value 1). -/
theorem create_payload_id_overrides_counterexample :
    assocGet (Database.init.create [("id", Value.vNum 99)] 0 0).2 "id" =
      some (Value.vNum 99) ∧
    (assocGet (Database.init.create [("id", Value.vNum 99)] 0 0).1.items
        1).map (fun it => assocGet it "id") = some (some (Value.vNum 99)) ∧
    Database.init.currentId = 1 ∧
    Value.vNum 99 ≠ Value.vNum 1 := by
  refine ⟨by decide, by decide, rfl, by decide⟩

/-- C2 (amended): for every payload, the created entity is stored under the
counter-allocated key and the payload can never override `createdAt` or
`updatedAt` (both assignments come after the spread); when the payload
contains no `"id"` field the entity's id equals the counter value, and a
payload `"id"` field overrides it with exactly the payload's value. -/
theorem create_id_and_timestamps_protected (db : Database) (data : Obj)
    (tc tu : Nat) :
    assocGet (db.create data tc tu).1.items db.currentId =
      some (db.create data tc tu).2 ∧
    assocGet (db.create data tc tu).2 "createdAt" = some (Value.vTime tc) ∧
    assocGet (db.create data tc tu).2 "updatedAt" = some (Value.vTime tu) ∧
    (assocGet data "id" = none →
      assocGet (db.create data tc tu).2 "id" =
        some (Value.vNum db.currentId)) ∧
    (∀ v, (data.map Prod.fst).Nodup → assocGet data "id" = some v →
      assocGet (db.create data tc tu).2 "id" = some v) := by
  refine ⟨?_, createItem_get_createdAt db.currentId data tc tu,
    createItem_get_updatedAt db.currentId data tc tu,
    createItem_get_id db.currentId data tc tu, ?_⟩
  · show assocGet (assocSet db.items db.currentId
        (createItem db.currentId data tc tu)) db.currentId =
      some (createItem db.currentId data tc tu)
    rw [assocGet_assocSet_self]
  · intro v hnd hv
    show assocGet (createItem db.currentId data tc tu) "id" = some v
    rw [createItem]
    rw [assocGet_assocSet_ne _ _ (by decide : ("id" : String) ≠ "updatedAt")]
    rw [assocGet_assocSet_ne _ _ (by decide : ("id" : String) ≠ "createdAt")]
    exact objGet_objSpread_of_some _ hnd hv

theorem create_id_and_timestamps_protected_witness :
    assocGet (Database.init.create [("id", Value.vNum 99)] 3 4).2
        "createdAt" = some (Value.vTime 3) ∧
    assocGet (Database.init.create [("id", Value.vNum 99)] 3 4).2
        "updatedAt" = some (Value.vTime 4) ∧
    assocGet (Database.init.create [("id", Value.vNum 99)] 3 4).2 "id" =
      some (Value.vNum 99) ∧
    assocGet (Database.init.create [("name", Value.vStr "A")] 0 0).2 "id" =
      some (Value.vNum 1) := by
  have h1 := create_id_and_timestamps_protected Database.init
    [("id", Value.vNum 99)] 3 4
  have h2 := create_id_and_timestamps_protected Database.init
    [("name", Value.vStr "A")] 0 0
  exact ⟨h1.2.1, h1.2.2.1,
    h1.2.2.2.2 (Value.vNum 99) (by decide) (by decide),
    h2.2.2.2.1 (by decide)⟩

/-- C3 is false as stated: `createdAt` and `updatedAt` come from two
separate `new Date().toISOString()` calls inside `create`; when the clock
ticks between them (first read 0, second read 1) the created entity has
`createdAt ≠ updatedAt`. -/
theorem create_timestamps_unequal_counterexample :
    assocGet (Database.init.create [("name", Value.vStr "A")] 0 1).2
        "createdAt" = some (Value.vTime 0) ∧
    assocGet (Database.init.create [("name", Value.vStr "A")] 0 1).2
        "updatedAt" = some (Value.vTime 1) ∧
    assocGet (Database.init.create [("name", Value.vStr "A")] 0 1).2
        "createdAt" ≠
      assocGet (Database.init.create [("name", Value.vStr "A")] 0 1).2
        "updatedAt" := by
  refine ⟨by decide, by decide, by decide⟩

/-- C3 (amended): `create` stamps `createdAt` with its first clock read and
`updatedAt` with its second; under a monotone clock `createdAt ≤ updatedAt`,
and the two are equal exactly when both reads return the same instant
(e.g. both fall in the same millisecond). -/
theorem create_timestamps_stamped (db : Database) (data : Obj)
    (tc tu : Nat) (h : tc ≤ tu) :
    assocGet (db.create data tc tu).2 "createdAt" = some (Value.vTime tc) ∧
    assocGet (db.create data tc tu).2 "updatedAt" = some (Value.vTime tu) ∧
    tc ≤ tu ∧
    (tc = tu → assocGet (db.create data tc tu).2 "createdAt" =
      assocGet (db.create data tc tu).2 "updatedAt") := by
  refine ⟨createItem_get_createdAt db.currentId data tc tu,
    createItem_get_updatedAt db.currentId data tc tu, h, ?_⟩
  intro he
  show assocGet (createItem db.currentId data tc tu) "createdAt" =
    assocGet (createItem db.currentId data tc tu) "updatedAt"
  rw [createItem_get_createdAt db.currentId data tc tu,
    createItem_get_updatedAt db.currentId data tc tu, he]

theorem create_timestamps_stamped_witness :
    assocGet (Database.init.create [("name", Value.vStr "A")] 5 5).2
        "createdAt" =
      assocGet (Database.init.create [("name", Value.vStr "A")] 5 5).2
        "updatedAt" :=
  (create_timestamps_stamped Database.init [("name", Value.vStr "A")] 5 5
    (le_refl 5)).2.2.2 rfl

/-- C4: on a found entity, `update` forces `id` and `createdAt` back to the
stored entity's values (the payload cannot override them, whatever it
contains), sets `updatedAt` to the clock reading of the call, which under a
monotone clock is ≥ the entity's previous `updatedAt`, and stores the
rebuilt entity back under the same id. -/
theorem update_preserves_id_createdAt (db : Database) (s : String)
    (data : Obj) (t : Nat) (item : Obj) (iv cv : Value) (t0 : Nat)
    (hfind : db.findById s = some item)
    (hid : assocGet item "id" = some iv)
    (hcr : assocGet item "createdAt" = some cv)
    (hup : assocGet item "updatedAt" = some (Value.vTime t0))
    (hclock : t0 ≤ t) :
    (db.update s data t).2 = some (updateItem item data t) ∧
    assocGet (updateItem item data t) "id" = some iv ∧
    assocGet (updateItem item data t) "createdAt" = some cv ∧
    assocGet (updateItem item data t) "updatedAt" = some (Value.vTime t) ∧
    t0 ≤ t ∧
    (db.update s data t).1.findById s = some (updateItem item data t) := by
  obtain ⟨n, hp, hg⟩ := findById_inv hfind
  have heq := update_found db s data t hp hg
  refine ⟨by rw [heq], ?_, ?_, updateItem_get_updatedAt item data t,
    hclock, ?_⟩
  · rw [updateItem_get_id, hid]
    rfl
  · rw [updateItem_get_createdAt, hcr]
    rfl
  · rw [heq]
    rw [findById_found _ s hp]
    show assocGet (assocSet db.items n (updateItem item data t)) n =
      some (updateItem item data t)
    rw [assocGet_assocSet_self]

theorem update_preserves_id_createdAt_witness :
    ((Database.init.create [("name", Value.vStr "A")] 0 0).1.update "1"
        [("id", Value.vNum 7), ("createdAt", Value.vTime 9),
         ("name", Value.vStr "B")] 4).2 =
      some (updateItem (createItem 1 [("name", Value.vStr "A")] 0 0)
        [("id", Value.vNum 7), ("createdAt", Value.vTime 9),
         ("name", Value.vStr "B")] 4) ∧
    assocGet (updateItem (createItem 1 [("name", Value.vStr "A")] 0 0)
        [("id", Value.vNum 7), ("createdAt", Value.vTime 9),
         ("name", Value.vStr "B")] 4) "id" = some (Value.vNum 1) ∧
    assocGet (updateItem (createItem 1 [("name", Value.vStr "A")] 0 0)
        [("id", Value.vNum 7), ("createdAt", Value.vTime 9),
         ("name", Value.vStr "B")] 4) "createdAt" = some (Value.vTime 0) := by
  have h := update_preserves_id_createdAt
    (Database.init.create [("name", Value.vStr "A")] 0 0).1 "1"
    [("id", Value.vNum 7), ("createdAt", Value.vTime 9),
     ("name", Value.vStr "B")] 4
    (createItem 1 [("name", Value.vStr "A")] 0 0)
    (Value.vNum 1) (Value.vTime 0) 0
    (by decide) (by decide) (by decide) (by decide) (by omega)
  exact ⟨h.1, h.2.1, h.2.2.1⟩

/-- C5 is false as stated: `update` is not a pure field-by-field merge.
With an empty payload, the field `updatedAt` — not named in the payload —
does not retain its prior value (vTime 0) but is set to the call's clock
reading (vTime 5). -/
theorem update_merge_counterexample :
    ((Database.init.create [("name", Value.vStr "A")] 0 0).1.update "1"
        [] 5).2.map (fun u => assocGet u "updatedAt") =
      some (some (Value.vTime 5)) ∧
    assocGet (Database.init.create [("name", Value.vStr "A")] 0 0).2
        "updatedAt" = some (Value.vTime 0) ∧
    some (Value.vTime 5) ≠ some (Value.vTime 0) := by
  refine ⟨by decide, by decide, by decide⟩

/-- C5 (amended): for every field other than the protected keys `id`,
`createdAt` and `updatedAt`, the entity produced by `update` is the
field-by-field merge of the existing entity with the payload: a payload
field replaces the identically-named existing field, and a field absent
from the payload keeps its prior value.  (`id` and `createdAt` keep the
original values regardless of the payload, and `updatedAt` is set to the
call's clock reading, per the update frame property.) -/
theorem update_merges_fields (db : Database) (s : String) (data : Obj)
    (t : Nat) (item : Obj) (k : String)
    (hfind : db.findById s = some item)
    (hdnd : (data.map Prod.fst).Nodup)
    (hind : (item.map Prod.fst).Nodup)
    (hk1 : k ≠ "id") (hk2 : k ≠ "createdAt") (hk3 : k ≠ "updatedAt") :
    (db.update s data t).2 = some (updateItem item data t) ∧
    (∀ v, assocGet data k = some v →
      assocGet (updateItem item data t) k = some v) ∧
    (assocGet data k = none →
      assocGet (updateItem item data t) k = assocGet item k) := by
  obtain ⟨n, hp, hg⟩ := findById_inv hfind
  have heq := update_found db s data t hp hg
  refine ⟨by rw [heq], ?_, ?_⟩
  · intro v hv
    rw [updateItem_get_other item data t hk1 hk2 hk3]
    exact objGet_objSpread_of_some _ hdnd hv
  · intro hnone
    rw [updateItem_get_other item data t hk1 hk2 hk3]
    rw [objGet_objSpread_of_none _ hnone]
    exact assocGet_objSpread_nil hind k

theorem update_merges_fields_witness :
    assocGet (updateItem (createItem 1 [("name", Value.vStr "A")] 0 0)
        [("name", Value.vStr "C")] 3) "name" = some (Value.vStr "C") :=
  (update_merges_fields
    (Database.init.create [("name", Value.vStr "A")] 0 0).1 "1"
    [("name", Value.vStr "C")] 3
    (createItem 1 [("name", Value.vStr "A")] 0 0) "name"
    (by decide) (by decide) (by decide)
    (by decide) (by decide) (by decide)).2.1 (Value.vStr "C") (by decide)

/-- C6: `findById` first coerces the id input with `parseInt` into the
integer domain of the counter; an unparsable (non-numeric) input yields the
not-found signal rather than an error, and a parsed input is looked up by
exact id match: the result is `some item` exactly when the store holds the
entry `(n, item)` for the parsed id `n`. -/
theorem findById_exact_match (db : Database) (s : String)
    (hn : db.KeysNodup) :
    (parseIntJS s = none → db.findById s = none) ∧
    (∀ item, db.findById s = some item ↔
      ∃ n, parseIntJS s = some n ∧ (n, item) ∈ db.items) := by
  refine ⟨findById_nan db s, ?_⟩
  intro item
  constructor
  · intro h
    obtain ⟨n, hp, hg⟩ := findById_inv h
    exact ⟨n, hp, mem_of_assocGet_eq_some hg⟩
  · rintro ⟨n, hp, hmem⟩
    rw [findById_found db s hp]
    exact assocGet_eq_some_of_mem hn hmem

theorem findById_exact_match_witness :
    (Database.init.create [("name", Value.vStr "A")] 0 0).1.findById "abc" =
      none ∧
    (Database.init.create [("name", Value.vStr "A")] 0 0).1.findById "1" =
      some (createItem 1 [("name", Value.vStr "A")] 0 0) := by
  constructor
  · exact (findById_exact_match
      (Database.init.create [("name", Value.vStr "A")] 0 0).1 "abc"
      (by decide)).1 (by decide)
  · exact ((findById_exact_match
      (Database.init.create [("name", Value.vStr "A")] 0 0).1 "1"
      (by decide)).2 (createItem 1 [("name", Value.vStr "A")] 0 0)).mpr
      ⟨1, by decide, by decide⟩

/-- C7: `delete` reports with its boolean exactly whether an entry for the
(parsed) id was present; a miss (including an unparsable id) returns
`false` and leaves the whole state — counter and every entity — unchanged;
and in every case the counter and every entity under a different id are
untouched. -/
theorem delete_reports_removal (db : Database) (s : String) :
    (db.delete s).1.currentId = db.currentId ∧
    ((db.delete s).2 = false → (db.delete s).1 = db) ∧
    ((db.delete s).2 = true ↔
      ∃ n item, parseIntJS s = some n ∧ (n, item) ∈ db.items) ∧
    (∀ n k, parseIntJS s = some n → k ≠ n →
      assocGet (db.delete s).1.items k = assocGet db.items k) := by
  rcases delete_items_characterise db s with ⟨hp, h1, h2⟩ | ⟨n, hp, h1, h2⟩
  · refine ⟨by rw [h1], fun _ => h1, ?_, ?_⟩
    · rw [h2]
      constructor
      · intro hfalse
        exact absurd hfalse (by simp)
      · rintro ⟨n, item, hpn, _⟩
        rw [hp] at hpn
        exact absurd hpn (by simp)
    · intro n k hpn hk
      rw [hp] at hpn
      exact absurd hpn (by simp)
  · refine ⟨by rw [h1], ?_, ?_, ?_⟩
    · intro hfalse
      rw [h2, any_key_eq_isSome] at hfalse
      have hnone : assocGet db.items n = none := by
        cases hg : assocGet db.items n with
        | none => rfl
        | some item => rw [hg] at hfalse; exact absurd hfalse (by simp)
      rw [h1, filter_ne_eq_self_of_get_none hnone]
    · rw [h2]
      constructor
      · intro htrue
        obtain ⟨p, hpmem, hdec⟩ := List.any_eq_true.mp htrue
        obtain ⟨a, b⟩ := p
        have ha : a = n := of_decide_eq_true hdec
        subst ha
        exact ⟨a, b, hp, hpmem⟩
      · rintro ⟨n1, item, hpn, hmem⟩
        rw [hp] at hpn
        injection hpn with hn1
        exact List.any_eq_true.mpr ⟨(n1, item), hmem, by simp [hn1]⟩
    · intro n1 k hpn hk
      rw [hp] at hpn
      injection hpn with hn1
      rw [h1]
      show assocGet (db.items.filter (fun p => decide (p.1 ≠ n))) k =
        assocGet db.items k
      exact assocGet_filter_of_ne db.items (by rw [hn1]; exact hk)

theorem delete_reports_removal_witness :
    ((Database.init.create [("name", Value.vStr "A")] 0 0).1.delete "5").1 =
      (Database.init.create [("name", Value.vStr "A")] 0 0).1 :=
  (delete_reports_removal
    (Database.init.create [("name", Value.vStr "A")] 0 0).1 "5").2.1
    (by decide)

/-- C8: for every Store state and every id input, `delete(id)` followed by
`findById(id)` on the same input yields the not-found signal. -/
theorem delete_then_findById_none (db : Database) (s : String) :
    (db.delete s).1.findById s = none := by
  rcases delete_items_characterise db s with ⟨hp, h1, _⟩ | ⟨n, hp, h1, _⟩
  · rw [h1]
    exact findById_nan db s hp
  · rw [h1, findById_found _ s hp]
    show assocGet (db.items.filter (fun p => decide (p.1 ≠ n))) n = none
    exact assocGet_filter_ne db.items n

/-- C9: starting from the empty Store, after any sequence of operations
with N creates (every create succeeds) and M successful deletes, M ≤ N and
`findAll()` returns exactly N − M entities. -/
theorem findAll_count_after_creates_deletes (ops : List Op) :
    numSuccessfulDeletes Database.init ops ≤ numCreates ops ∧
    ((runOps Database.init ops).findAll).length =
      numCreates ops - numSuccessfulDeletes Database.init ops := by
  have h := items_length_runOps Database.init ops (by decide) (by decide)
  rw [show Database.init.items.length = 0 from rfl] at h
  rw [Database.findAll, List.length_map]
  omega

/-- C10: `findAll` returns the entities in insertion order: `create`
appends the new entity at the end of the sequence, and a successful
`update` replaces the stored entity in place — the store keeps exactly the
same keys in the same positions, with the updated entity at its original
position — rather than moving it to the end. -/
theorem findAll_insertion_order (db : Database) (data : Obj) (tc tu : Nat)
    (s : String) (data2 : Obj) (t : Nat) (u : Obj)
    (hb : db.Bounded) (hn : db.KeysNodup)
    (hup : (db.update s data2 t).2 = some u) :
    (db.create data tc tu).1.findAll =
      db.findAll ++ [(db.create data tc tu).2] ∧
    ∃ n, parseIntJS s = some n ∧
      (db.update s data2 t).1.items =
        db.items.map (fun p => if p.1 = n then (n, u) else p) := by
  constructor
  · show (assocSet db.items db.currentId
        (createItem db.currentId data tc tu)).map Prod.snd =
      db.items.map Prod.snd ++ [createItem db.currentId data tc tu]
    rw [assocSet_of_get_none (assocGet_items_currentId hb)]
    simp
  · rcases update_items_characterise db s data2 t with
      ⟨h1, h2⟩ | ⟨n, item, hp, hg, h2, h1⟩
    · rw [h2] at hup
      exact absurd hup (by simp)
    · refine ⟨n, hp, ?_⟩
      rw [h2] at hup
      injection hup with hu
      rw [h1]
      show assocSet db.items n (updateItem item data2 t) =
        db.items.map (fun p => if p.1 = n then (n, u) else p)
      rw [assocSet_eq_map_of_get_some hn hg, hu]

theorem findAll_insertion_order_witness :
    ((Database.init.create [("name", Value.vStr "A")] 0 0).1.create
        [("name", Value.vStr "B")] 2 2).1.findAll =
      (Database.init.create [("name", Value.vStr "A")] 0 0).1.findAll ++
        [((Database.init.create [("name", Value.vStr "A")] 0 0).1.create
          [("name", Value.vStr "B")] 2 2).2] :=
  (findAll_insertion_order
    (Database.init.create [("name", Value.vStr "A")] 0 0).1
    [("name", Value.vStr "B")] 2 2 "1" [("name", Value.vStr "C")] 3
    (updateItem (createItem 1 [("name", Value.vStr "A")] 0 0)
      [("name", Value.vStr "C")] 3)
    (by decide) (by decide) (by decide)).1
